import Mathlib

/-!
# PerspectiveSquare: homography estimation and inverse-mapped rasterisation

A shallow embedding of the numerical core of `src/js/script.js`
(`clamp`, `lerp`, `computeHomography`, `gaussianSolve`, `applyH`,
`bilinearSample`, `renderOutput`) in exact rational arithmetic.

Conventions of the embedding

* JavaScript numbers are rationals (`ℚ`): every statement below is about the
  program run in exact arithmetic, not about IEEE-754 rounding.
* A `Float64Array` is a map from index to value (`ℕ → ℚ`); a write
  `A[k] = v` is `Function.update A k v`.
* `throw new Error('Singular matrix')` is `Except.error "Singular matrix"`.
* A division whose divisor is zero yields `±Infinity` or `NaN` in JavaScript;
  `applyH` returns `none` in that case (see `renderPixel` for what the
  rasteriser then stores).
* A read of a typed array outside its bounds yields `undefined`, which turns
  every arithmetic expression it enters into `NaN`; reads are `Option`-valued
  and `none` plays the part of `undefined`/`NaN`.
-/

namespace PerspectiveSquare

/-! ## Utilities (script.js, lines 2-3) -/

/-- Clamp, as in `const clamp = (v, a, b) => Math.max(a, Math.min(b, v))`. -/
def clamp {α : Type} [LinearOrder α] (v a b : α) : α := max a (min b v)

/-- Linear interpolation, as in `function lerp(a,b,t){ return a + (b-a)*t; }`. -/
def lerp (a b t : ℚ) : ℚ := a + (b - a) * t

/-- A point `{x, y}`. -/
structure Point where
  x : ℚ
  y : ℚ
deriving DecidableEq

/-- Four points in order (the `handles` array, or the destination corners). -/
abbrev Quad := Fin 4 → Point

/-- Equality of results is decidable, so that concrete runs can be evaluated. -/
instance instDecidableEqExcept {ε α : Type} [DecidableEq ε] [DecidableEq α] :
    DecidableEq (Except ε α)
  | .ok a, .ok b =>
    if h : a = b then isTrue (by rw [h]) else isFalse (fun h' => h (Except.ok.inj h'))
  | .error a, .error b =>
    if h : a = b then isTrue (by rw [h]) else isFalse (fun h' => h (Except.error.inj h'))
  | .ok _, .error _ => isFalse (fun h => Except.noConfusion h)
  | .error _, .ok _ => isFalse (fun h => Except.noConfusion h)

/-! ## Homography estimation (script.js, lines 317-388) -/

/-- The augmented matrix `M` of `gaussianSolve`: 8 rows of 9 entries. -/
abbrev Aug := Fin 8 → Fin 9 → ℚ

/-- The index range `0 .. 7` of the loops `for (let r=0; r<n; r++)` with `n = 8`. -/
def indices : List (Fin 8) := [0, 1, 2, 3, 4, 5, 6, 7]

/-- Body of the loop `for (let i=0;i<4;i++)` of `computeHomography`: the writes
to rows `r1 = i*2` and `r2 = i*2+1` of the flat array `A` and to `b`. -/
def fillRows (srcPts dstPts : Quad) (Ab : (ℕ → ℚ) × (ℕ → ℚ)) (i : Fin 4) :
    (ℕ → ℚ) × (ℕ → ℚ) :=
  let xs := (srcPts i).x
  let ys := (srcPts i).y
  let xd := (dstPts i).x
  let yd := (dstPts i).y
  let r1 := i.val * 2
  let r2 := i.val * 2 + 1
  let A := Ab.1
  let b := Ab.2
  let A := Function.update A (r1 * 8 + 0) xd
  let A := Function.update A (r1 * 8 + 1) yd
  let A := Function.update A (r1 * 8 + 2) 1
  let A := Function.update A (r1 * 8 + 3) 0
  let A := Function.update A (r1 * 8 + 4) 0
  let A := Function.update A (r1 * 8 + 5) 0
  let A := Function.update A (r1 * 8 + 6) (-xd * xs)
  let A := Function.update A (r1 * 8 + 7) (-yd * xs)
  let b := Function.update b r1 xs
  let A := Function.update A (r2 * 8 + 0) 0
  let A := Function.update A (r2 * 8 + 1) 0
  let A := Function.update A (r2 * 8 + 2) 0
  let A := Function.update A (r2 * 8 + 3) xd
  let A := Function.update A (r2 * 8 + 4) yd
  let A := Function.update A (r2 * 8 + 5) 1
  let A := Function.update A (r2 * 8 + 6) (-xd * ys)
  let A := Function.update A (r2 * 8 + 7) (-yd * ys)
  let b := Function.update b r2 ys
  (A, b)

/-- The arrays `A` (flat, row-major, 8x8) and `b` that `computeHomography` builds:
both start filled with `0` and the loop body runs for `i = 0, 1, 2, 3`. -/
def buildSystem (srcPts dstPts : Quad) : (ℕ → ℚ) × (ℕ → ℚ) :=
  [0, 1, 2, 3].foldl (fillRows srcPts dstPts) (fun _ => 0, fun _ => 0)

/-- The augmented matrix built at the start of `gaussianSolve`:
row `i` is `[A[i*8+0], ..., A[i*8+7], b[i]]`. -/
def augmented (A b : ℕ → ℚ) : Aug := fun i =>
  ![A (i.val * 8 + 0), A (i.val * 8 + 1), A (i.val * 8 + 2), A (i.val * 8 + 3),
    A (i.val * 8 + 4), A (i.val * 8 + 5), A (i.val * 8 + 6), A (i.val * 8 + 7), b i.val]

/-- The pivot tolerance `1e-12`. -/
def tol : ℚ := 1 / 1000000000000

/-- Pivot search: `let piv = col; for (let r=col+1; r<n; r++)
if (Math.abs(M[r][col]) > Math.abs(M[piv][col])) piv = r;`. -/
def findPivot (M : Aug) (col : Fin 8) : Fin 8 :=
  indices.foldl
    (fun piv r => if col < r ∧ |M r col.castSucc| > |M piv col.castSucc| then r else piv) col

/-- One iteration of the loop `for (let col=0; col<n; col++)` of `gaussianSolve`:
pivot search, singularity test, row swap, normalisation of the pivot row over the
columns `c = col .. n`, elimination of column `col` from every other row over
the same columns. -/
def gaussStep (M : Aug) (col : Fin 8) : Except String Aug :=
  let piv := findPivot M col
  if |M piv col.castSucc| < tol then .error "Singular matrix"
  else
    let M1 : Aug :=
      if piv ≠ col then Function.update (Function.update M col (M piv)) piv (M col) else M
    let div := M1 col col.castSucc
    let M2 : Aug :=
      Function.update M1 col (fun c => if col.castSucc ≤ c then M1 col c / div else M1 col c)
    .ok (fun r => if r = col then M2 r else
      fun c => if col.castSucc ≤ c then M2 r c - M2 r col.castSucc * M2 col c else M2 r c)

/-- The solver `gaussianSolve(A, b)`: the eight elimination steps in order, then
`M.map(row => row[n])`. -/
def gaussianSolve (A b : ℕ → ℚ) : Except String (Fin 8 → ℚ) :=
  (indices.foldlM gaussStep (augmented A b)).map (fun M i => M i 8)

/-- The estimator `computeHomography(srcPts, dstPts)`: returns
`[h[0], ..., h[7], 1]`, or propagates the solver's error. -/
def computeHomography (srcPts dstPts : Quad) : Except String (Fin 9 → ℚ) :=
  let Ab := buildSystem srcPts dstPts
  (gaussianSolve Ab.1 Ab.2).map (fun h => ![h 0, h 1, h 2, h 3, h 4, h 5, h 6, h 7, 1])

/-- The mapper `applyH(H, x, y)`. When `W = 0` the JavaScript quotients `X/W` and
`Y/W` are `±Infinity` or `NaN`; the embedding returns `none` then. -/
def applyH (H : Fin 9 → ℚ) (x y : ℚ) : Option Point :=
  let X := H 0 * x + H 1 * y + H 2
  let Y := H 3 * x + H 4 * y + H 5
  let W := H 6 * x + H 7 * y + 1
  if W = 0 then none else some ⟨X / W, Y / W⟩

/-! ## Sampling (script.js, lines 404-425) -/

/-- An `ImageData`: `width`, `height` and the `Uint8ClampedArray` `data`. -/
structure ImageData where
  width : ℕ
  height : ℕ
  data : Array ℕ

/-- What the canvas API guarantees of an `ImageData`: `data` holds four bytes per
pixel, every entry is a byte, and the byte length fits the signed 32-bit range
in which `<<` computes. -/
def ImageData.Valid (img : ImageData) : Prop :=
  img.data.size = 4 * img.width * img.height ∧ img.data.size < 2 ^ 31 ∧
    ∀ i (h : i < img.data.size), img.data[i] ≤ 255

/-- ECMAScript `ToInt32` on an integer. -/
def toInt32 (n : ℤ) : ℤ := (n + 2 ^ 31) % 2 ^ 32 - 2 ^ 31

/-- The expression `v << 2`: `ToInt32` of the operand, shifted, wrapped to 32 bits. -/
def shl2 (v : ℤ) : ℤ := toInt32 (toInt32 v * 4)

/-- A read `data[i]`: `none` (JavaScript `undefined`) outside `0 ≤ i < length`. -/
def readData (data : Array ℕ) (i : ℤ) : Option ℚ :=
  if 0 ≤ i then (data[i.toNat]?).map (fun v => (v : ℚ)) else none

/-- The four base indices `i00, i10, i01, i11` of `bilinearSample`, and the
weights `tx, ty`. -/
structure Taps where
  i00 : ℤ
  i10 : ℤ
  i01 : ℤ
  i11 : ℤ
  tx : ℚ
  ty : ℚ
deriving DecidableEq

/-- The index and weight computation of `bilinearSample` (lines 406-418). Only
`i00` clamps `x0` and `y0`; `i10` uses `y0` and `i01` uses `x0` as they are. -/
def taps (imgData : ImageData) (x y : ℚ) : Taps :=
  let width : ℤ := imgData.width
  let height : ℤ := imgData.height
  let x0 : ℤ := ⌊x⌋
  let y0 : ℤ := ⌊y⌋
  let x1 := clamp (x0 + 1) 0 (width - 1)
  let y1 := clamp (y0 + 1) 0 (height - 1)
  let tx := clamp (x - x0) 0 1
  let ty := clamp (y - y0) 0 1
  let idx := fun (xx yy : ℤ) => shl2 (yy * width + xx)
  { i00 := idx (clamp x0 0 (width - 1)) (clamp y0 0 (height - 1))
    i10 := idx x1 y0
    i01 := idx x0 y1
    i11 := idx x1 y1
    tx := tx
    ty := ty }

/-- The sampler `bilinearSample(imgData, x, y)`: channel `k` of the result
`[r, g, b, a]` is `lerp(lerp(data[i00+k], data[i10+k], tx),
lerp(data[i01+k], data[i11+k], tx), ty)`; `none` is `NaN`. -/
def bilinearSample (imgData : ImageData) (x y : ℚ) (k : Fin 4) : Option ℚ :=
  let t := taps imgData x y
  let data := imgData.data
  match readData data (t.i00 + k.val), readData data (t.i10 + k.val),
      readData data (t.i01 + k.val), readData data (t.i11 + k.val) with
  | some p00, some p10, some p01, some p11 =>
    some (lerp (lerp p00 p10 t.tx) (lerp p01 p11 t.tx) t.ty)
  | _, _, _, _ => none

/-! ## Rendering (script.js, lines 428-480) -/

/-- The destination corners `dstSq` of `renderOutput`:
`(0,0), (W-1,0), (W-1,H-1), (0,H-1)`. -/
def dstSq (W H : ℕ) : Quad :=
  ![⟨0, 0⟩, ⟨(W : ℚ) - 1, 0⟩, ⟨(W : ℚ) - 1, (H : ℚ) - 1⟩, ⟨0, (H : ℚ) - 1⟩]

/-- Rounding to the nearest integer, ties to even (the conversion a
`Uint8ClampedArray` applies on a store). -/
def roundHalfEven (v : ℚ) : ℤ :=
  let f : ℤ := ⌊v⌋
  let d := v - f
  if d < 1 / 2 then f else if 1 / 2 < d then f + 1 else if f % 2 = 0 then f else f + 1

/-- The value a store `outD[oi] = v` leaves in a `Uint8ClampedArray`:
`NaN` becomes `0`, anything else is rounded and clamped to `0 .. 255`. -/
def toUint8Clamped : Option ℚ → ℕ
  | none => 0
  | some v => (clamp (roundHalfEven v) 0 255).toNat

/-- Body of the pixel loop of `renderOutput` for the output pixel `(x, y)`: the
four bytes stored at `outD[oi], ..., outD[oi+3]`.

When `applyH` divides by zero, `sx` and `sy` are each `±Infinity` or `NaN`. An
infinite coordinate fails the bounds test, so `0,0,0,0` is stored; when both are
`NaN` the test passes, `bilinearSample` returns `NaN` in every channel (its
weights are `NaN`) and the stores convert `NaN` to `0`. Either way the pixel is
`0,0,0,0`. The bounds of the test are `srcCanvas.width` and `srcCanvas.height`,
which are the dimensions `srcImageData` was read with. -/
def renderPixel (srcImageData : ImageData) (Hmat : Fin 9 → ℚ) (x y : ℕ) (k : Fin 4) : ℕ :=
  match applyH Hmat x y with
  | none => 0
  | some p =>
    if p.x < 0 ∨ p.y < 0 ∨ p.x ≥ srcImageData.width ∨ p.y ≥ srcImageData.height then 0
    else toUint8Clamped (bilinearSample srcImageData p.x p.y k)

/-- The output of a rendering pass: its size and, for each output pixel
`(x, y)` with `x < width`, `y < height`, the bytes stored in its four channels. -/
structure Output where
  width : ℕ
  height : ℕ
  pixel : ℕ → ℕ → Fin 4 → ℕ

/-- The renderer `renderOutput` with its inputs made explicit (`srcImageData`,
`handles`, and the size `W x H` of `dstCanvas`): the homography of `handles`
against `dstSq`, then the pixel loop. A solver error stops it before any output
is produced. -/
def renderOutput (srcImageData : ImageData) (handles : Quad) (W H : ℕ) :
    Except String Output :=
  match computeHomography handles (dstSq W H) with
  | .error e => .error e
  | .ok Hmat => .ok { width := W, height := H, pixel := renderPixel srcImageData Hmat }

/-! ## Notions used to state the properties -/

/-- The row that sits at position `r` after the swap of rows `col` and `piv`. -/
def swapIdx (col piv r : Fin 8) : Fin 8 :=
  if r = col then piv else if r = piv then col else r

/-- Three points lie on one line: their orientation determinant vanishes. -/
def Collinear (p q r : Point) : Prop :=
  (q.x - p.x) * (r.y - p.y) - (q.y - p.y) * (r.x - p.x) = 0

instance instDecidableCollinear (p q r : Point) : Decidable (Collinear p q r) :=
  inferInstanceAs (Decidable ((q.x - p.x) * (r.y - p.y) - (q.y - p.y) * (r.x - p.x) = 0))

/-- The homogeneous divisor `W` of `applyH`. -/
def divisor (H : Fin 9 → ℚ) (x y : ℚ) : ℚ := H 6 * x + H 7 * y + 1

/-- The source quad of the concrete scenario: the corners of a 100x100 image. -/
def fullQuad : Quad := ![⟨0, 0⟩, ⟨100, 0⟩, ⟨100, 100⟩, ⟨0, 100⟩]

/-- Byte `k` of pixel number `n` (row-major) of an image: `data[4*n + k]`. -/
def pixelByte (img : ImageData) (n : ℕ) (k : Fin 4) : ℕ := img.data.getD (4 * n + k.val) 0

/-- A row of the augmented matrix given by its nine entries. -/
def row9 (x0 x1 x2 x3 x4 x5 x6 x7 x8 : ℚ) : Fin 9 → ℚ := fun i =>
  if i.val = 0 then x0 else if i.val = 1 then x1 else if i.val = 2 then x2
  else if i.val = 3 then x3 else if i.val = 4 then x4 else if i.val = 5 then x5
  else if i.val = 6 then x6 else if i.val = 7 then x7 else x8

/-- An augmented matrix given by its eight rows. -/
def rows8 (r0 r1 r2 r3 r4 r5 r6 r7 : Fin 9 → ℚ) : Aug := fun i =>
  if i.val = 0 then r0 else if i.val = 1 then r1 else if i.val = 2 then r2
  else if i.val = 3 then r3 else if i.val = 4 then r4 else if i.val = 5 then r5
  else if i.val = 6 then r6 else r7

/-- State of the elimination on the identity correspondence (`a = W-1`, `c = H-1`) before column 0. -/
def idS0 (a c : ℚ) : Aug :=
  rows8
    (row9 0 0 1 0 0 0 0 0 0)
    (row9 0 0 0 0 0 1 0 0 0)
    (row9 a 0 1 0 0 0 (-a^2) 0 a)
    (row9 0 0 0 a 0 1 0 0 0)
    (row9 a c 1 0 0 0 (-a^2) (-a*c) a)
    (row9 0 0 0 a c 1 (-a*c) (-c^2) c)
    (row9 0 c 1 0 0 0 0 0 0)
    (row9 0 0 0 0 c 1 0 (-c^2) c)

/-- State of the elimination on the identity correspondence after column 0. -/
def idS1 (a c : ℚ) : Aug :=
  rows8
    (row9 1 0 (1/a) 0 0 0 (-a) 0 1)
    (row9 0 0 0 0 0 1 0 0 0)
    (row9 0 0 1 0 0 0 0 0 0)
    (row9 0 0 0 a 0 1 0 0 0)
    (row9 0 c 0 0 0 0 0 (-a*c) 0)
    (row9 0 0 0 a c 1 (-a*c) (-c^2) c)
    (row9 0 c 1 0 0 0 0 0 0)
    (row9 0 0 0 0 c 1 0 (-c^2) c)

/-- State of the elimination on the identity correspondence after column 1. -/
def idS2 (a c : ℚ) : Aug :=
  rows8
    (row9 1 0 (1/a) 0 0 0 (-a) 0 1)
    (row9 0 1 0 0 0 0 0 (-a) 0)
    (row9 0 0 1 0 0 0 0 0 0)
    (row9 0 0 0 a 0 1 0 0 0)
    (row9 0 0 0 0 0 1 0 0 0)
    (row9 0 0 0 a c 1 (-a*c) (-c^2) c)
    (row9 0 0 1 0 0 0 0 (a*c) 0)
    (row9 0 0 0 0 c 1 0 (-c^2) c)

/-- State of the elimination on the identity correspondence after column 2. -/
def idS3 (a c : ℚ) : Aug :=
  rows8
    (row9 1 0 0 0 0 0 (-a) 0 1)
    (row9 0 1 0 0 0 0 0 (-a) 0)
    (row9 0 0 1 0 0 0 0 0 0)
    (row9 0 0 0 a 0 1 0 0 0)
    (row9 0 0 0 0 0 1 0 0 0)
    (row9 0 0 0 a c 1 (-a*c) (-c^2) c)
    (row9 0 0 0 0 0 0 0 (a*c) 0)
    (row9 0 0 0 0 c 1 0 (-c^2) c)

/-- State of the elimination on the identity correspondence after column 3. -/
def idS4 (a c : ℚ) : Aug :=
  rows8
    (row9 1 0 0 0 0 0 (-a) 0 1)
    (row9 0 1 0 0 0 0 0 (-a) 0)
    (row9 0 0 1 0 0 0 0 0 0)
    (row9 0 0 0 1 0 (1/a) 0 0 0)
    (row9 0 0 0 0 0 1 0 0 0)
    (row9 0 0 0 0 c 0 (-a*c) (-c^2) c)
    (row9 0 0 0 0 0 0 0 (a*c) 0)
    (row9 0 0 0 0 c 1 0 (-c^2) c)

/-- State of the elimination on the identity correspondence after column 4. -/
def idS5 (a c : ℚ) : Aug :=
  rows8
    (row9 1 0 0 0 0 0 (-a) 0 1)
    (row9 0 1 0 0 0 0 0 (-a) 0)
    (row9 0 0 1 0 0 0 0 0 0)
    (row9 0 0 0 1 0 (1/a) 0 0 0)
    (row9 0 0 0 0 1 0 (-a) (-c) 1)
    (row9 0 0 0 0 0 1 0 0 0)
    (row9 0 0 0 0 0 0 0 (a*c) 0)
    (row9 0 0 0 0 0 1 (a*c) 0 0)

/-- State of the elimination on the identity correspondence after column 5. -/
def idS6 (a c : ℚ) : Aug :=
  rows8
    (row9 1 0 0 0 0 0 (-a) 0 1)
    (row9 0 1 0 0 0 0 0 (-a) 0)
    (row9 0 0 1 0 0 0 0 0 0)
    (row9 0 0 0 1 0 0 0 0 0)
    (row9 0 0 0 0 1 0 (-a) (-c) 1)
    (row9 0 0 0 0 0 1 0 0 0)
    (row9 0 0 0 0 0 0 0 (a*c) 0)
    (row9 0 0 0 0 0 0 (a*c) 0 0)

/-- State of the elimination on the identity correspondence after column 6. -/
def idS7 (a c : ℚ) : Aug :=
  rows8
    (row9 1 0 0 0 0 0 0 0 1)
    (row9 0 1 0 0 0 0 0 (-a) 0)
    (row9 0 0 1 0 0 0 0 0 0)
    (row9 0 0 0 1 0 0 0 0 0)
    (row9 0 0 0 0 1 0 0 (-c) 1)
    (row9 0 0 0 0 0 1 0 0 0)
    (row9 0 0 0 0 0 0 1 0 0)
    (row9 0 0 0 0 0 0 0 (a*c) 0)

/-- State of the elimination on the identity correspondence after column 7. -/
def idS8 (a c : ℚ) : Aug :=
  rows8
    (row9 1 0 0 0 0 0 0 0 1)
    (row9 0 1 0 0 0 0 0 0 0)
    (row9 0 0 1 0 0 0 0 0 0)
    (row9 0 0 0 1 0 0 0 0 0)
    (row9 0 0 0 0 1 0 0 0 1)
    (row9 0 0 0 0 0 1 0 0 0)
    (row9 0 0 0 0 0 0 1 0 0)
    (row9 0 0 0 0 0 0 0 1 0)

/-- The augmented matrix of `computeHomography(s, d)`, row by row. -/
def systemRows (s d : Quad) : Aug :=
  rows8
    (row9 (d 0).x (d 0).y 1 0 0 0 (-(d 0).x * (s 0).x) (-(d 0).y * (s 0).x) (s 0).x)
    (row9 0 0 0 (d 0).x (d 0).y 1 (-(d 0).x * (s 0).y) (-(d 0).y * (s 0).y) (s 0).y)
    (row9 (d 1).x (d 1).y 1 0 0 0 (-(d 1).x * (s 1).x) (-(d 1).y * (s 1).x) (s 1).x)
    (row9 0 0 0 (d 1).x (d 1).y 1 (-(d 1).x * (s 1).y) (-(d 1).y * (s 1).y) (s 1).y)
    (row9 (d 2).x (d 2).y 1 0 0 0 (-(d 2).x * (s 2).x) (-(d 2).y * (s 2).x) (s 2).x)
    (row9 0 0 0 (d 2).x (d 2).y 1 (-(d 2).x * (s 2).y) (-(d 2).y * (s 2).y) (s 2).y)
    (row9 (d 3).x (d 3).y 1 0 0 0 (-(d 3).x * (s 3).x) (-(d 3).y * (s 3).x) (s 3).x)
    (row9 0 0 0 (d 3).x (d 3).y 1 (-(d 3).x * (s 3).y) (-(d 3).y * (s 3).y) (s 3).y)

/-- The identity homography `[1,0,0, 0,1,0, 0,0,1]`. -/
def identityH : Fin 9 → ℚ := ![1, 0, 0, 0, 1, 0, 0, 0, 1]

/-- The colour `(255, 0, 0, 255)`. -/
def redPixel : Fin 4 → ℕ := ![255, 0, 0, 255]

/-- The 100x100 source buffer of the concrete scenario: every pixel is
`(255, 0, 0, 255)`. -/
def redImage : ImageData :=
  { width := 100
    height := 100
    data := Array.ofFn (fun i : Fin 40000 => if i.val % 4 = 1 ∨ i.val % 4 = 2 then 0 else 255) }

/-- The homography of the concrete scenario: a scale by `100/49` on both axes. -/
def scaleH : Fin 9 → ℚ := ![100 / 49, 0, 0, 0, 100 / 49, 0, 0, 0, 1]

/-- Orientation determinant of three points (twice the signed area of the
triangle `p q r`). -/
def orient (p q r : Point) : ℚ := (q.x - p.x) * (r.y - p.y) - (q.y - p.y) * (r.x - p.x)

/-- A quad is strictly convex when its four consecutive turns have the same
strict sign. -/
def StrictlyConvex (q : Quad) : Prop :=
  (0 < orient (q 0) (q 1) (q 2) ∧ 0 < orient (q 1) (q 2) (q 3) ∧
    0 < orient (q 2) (q 3) (q 0) ∧ 0 < orient (q 3) (q 0) (q 1)) ∨
  (orient (q 0) (q 1) (q 2) < 0 ∧ orient (q 1) (q 2) (q 3) < 0 ∧
    orient (q 2) (q 3) (q 0) < 0 ∧ orient (q 3) (q 0) (q 1) < 0)

instance instDecidableStrictlyConvex (q : Quad) : Decidable (StrictlyConvex q) :=
  inferInstanceAs (Decidable (
    (0 < orient (q 0) (q 1) (q 2) ∧ 0 < orient (q 1) (q 2) (q 3) ∧
      0 < orient (q 2) (q 3) (q 0) ∧ 0 < orient (q 3) (q 0) (q 1)) ∨
    (orient (q 0) (q 1) (q 2) < 0 ∧ orient (q 1) (q 2) (q 3) < 0 ∧
      orient (q 2) (q 3) (q 0) < 0 ∧ orient (q 3) (q 0) (q 1) < 0)))

/-- All four points of a quad lie inside the pixel grid of an image. -/
def InsideImage (img : ImageData) (q : Quad) : Prop :=
  ∀ i : Fin 4, 0 ≤ (q i).x ∧ (q i).x < img.width ∧ 0 ≤ (q i).y ∧ (q i).y < img.height

instance instDecidableValid (img : ImageData) : Decidable img.Valid :=
  inferInstanceAs (Decidable (img.data.size = 4 * img.width * img.height ∧
    img.data.size < 2 ^ 31 ∧ ∀ i (h : i < img.data.size), img.data[i] ≤ 255))

instance instDecidableInsideImage (img : ImageData) (q : Quad) : Decidable (InsideImage img q) :=
  inferInstanceAs (Decidable (∀ i : Fin 4,
    0 ≤ (q i).x ∧ (q i).x < img.width ∧ 0 ≤ (q i).y ∧ (q i).y < img.height))

/-- The sampling rule of the specification (section 4.4), word for word: floor,
clamp `x0`, `y0`, `x0+1`, `y0+1` to the grid, clamp the fractional weights to
`[0,1]`, blend horizontally at both rows and then vertically. `p(xx, yy)` is byte
`k` of the pixel in column `xx`, row `yy`. -/
def bilinearSampleSpec (imgData : ImageData) (x y : ℚ) (k : Fin 4) : Option ℚ :=
  let width : ℤ := imgData.width
  let height : ℤ := imgData.height
  let x0 : ℤ := ⌊x⌋
  let y0 : ℤ := ⌊y⌋
  let cx0 := clamp x0 0 (width - 1)
  let cy0 := clamp y0 0 (height - 1)
  let x1 := clamp (x0 + 1) 0 (width - 1)
  let y1 := clamp (y0 + 1) 0 (height - 1)
  let tx := clamp (x - x0) 0 1
  let ty := clamp (y - y0) 0 1
  let p := fun (xx yy : ℤ) => readData imgData.data (4 * (yy * width + xx) + k.val)
  match p cx0 cy0, p x1 cy0, p cx0 y1, p x1 y1 with
  | some p00, some p10, some p01, some p11 =>
    some (lerp (lerp p00 p10 tx) (lerp p01 p11 tx) ty)
  | _, _, _, _ => none

/-- A 2x2 image whose four pixels differ in the red channel:
`(0,0) ↦ 0`, `(1,0) ↦ 100`, `(0,1) ↦ 200`, `(1,1) ↦ 50`. -/
def img2 : ImageData :=
  { width := 2
    height := 2
    data := #[0, 0, 0, 255, 100, 0, 0, 255, 200, 0, 0, 255, 50, 0, 0, 255] }

theorem mem_indices (r : Fin 8) : r ∈ indices := by
  fin_cases r <;> simp [indices]

theorem foldl_pivot (M : Aug) (col : Fin 8) (l : List (Fin 8)) :
    ∀ p0 : Fin 8, col ≤ p0 →
      col ≤ l.foldl (fun piv r =>
          if col < r ∧ |M r col.castSucc| > |M piv col.castSucc| then r else piv) p0 ∧
      |M p0 col.castSucc| ≤ |M (l.foldl (fun piv r =>
          if col < r ∧ |M r col.castSucc| > |M piv col.castSucc| then r else piv) p0)
            col.castSucc| ∧
      ∀ r ∈ l, col < r → |M r col.castSucc| ≤ |M (l.foldl (fun piv r =>
          if col < r ∧ |M r col.castSucc| > |M piv col.castSucc| then r else piv) p0)
            col.castSucc| := by
  induction l with
  | nil => intro p0 h; simp [h]
  | cons a l ih =>
    intro p0 h
    simp only [List.foldl_cons]
    by_cases hc : col < a ∧ |M a col.castSucc| > |M p0 col.castSucc|
    · rw [if_pos hc]
      obtain ⟨h1, h2, h3⟩ := ih a (le_of_lt hc.1)
      refine ⟨h1, le_trans (le_of_lt hc.2) h2, ?_⟩
      intro r hr hlt
      rcases List.mem_cons.mp hr with rfl | hr
      · exact h2
      · exact h3 r hr hlt
    · rw [if_neg hc]
      obtain ⟨h1, h2, h3⟩ := ih p0 h
      refine ⟨h1, h2, ?_⟩
      intro r hr hlt
      rcases List.mem_cons.mp hr with rfl | hr
      · have : ¬ |M r col.castSucc| > |M p0 col.castSucc| := fun h' => hc ⟨hlt, h'⟩
        exact le_trans (not_lt.mp this) h2
      · exact h3 r hr hlt

theorem findPivot_ge (M : Aug) (col : Fin 8) : col ≤ findPivot M col :=
  (foldl_pivot M col indices col le_rfl).1

theorem findPivot_max (M : Aug) (col r : Fin 8) (h : col ≤ r) :
    |M r col.castSucc| ≤ |M (findPivot M col) col.castSucc| := by
  rcases eq_or_lt_of_le h with rfl | hlt
  · exact (foldl_pivot M col indices col le_rfl).2.1
  · exact (foldl_pivot M col indices col le_rfl).2.2 r (mem_indices r) hlt

theorem gaussStep_ok (M M' : Aug) (col : Fin 8) (h : gaussStep M col = .ok M') :
    tol ≤ |M (findPivot M col) col.castSucc| ∧
    ∀ r c, M' r c =
      if r = col then
        (if col.castSucc ≤ c then M (findPivot M col) c / M (findPivot M col) col.castSucc
          else M (findPivot M col) c)
      else if col.castSucc ≤ c then
        M (swapIdx col (findPivot M col) r) c -
          M (swapIdx col (findPivot M col) r) col.castSucc *
            (M (findPivot M col) c / M (findPivot M col) col.castSucc)
      else M (swapIdx col (findPivot M col) r) c := by
  unfold gaussStep at h
  simp only at h
  split_ifs at h with h1 h2
  · injection h with h
    subst h
    have h2' : ¬ col = findPivot M col := fun e => h2 e.symm
    refine ⟨not_lt.mp h1, ?_⟩
    intro r c
    by_cases hr : r = col
    · subst hr
      simp [Function.update_apply, swapIdx, h2']
    · by_cases hp : r = findPivot M col
      · subst hp
        by_cases hc : col.castSucc ≤ c <;>
          simp [Function.update_apply, swapIdx, hr, h2, h2', hc]
      · by_cases hc : col.castSucc ≤ c <;>
          simp [Function.update_apply, swapIdx, hr, hp, h2, h2', hc]
  · injection h with h
    subst h
    have h2' : findPivot M col = col := not_not.mp h2
    refine ⟨not_lt.mp h1, ?_⟩
    intro r c
    by_cases hr : r = col
    · subst hr
      simp [Function.update_apply, swapIdx, h2']
    · by_cases hc : col.castSucc ≤ c <;>
        simp [Function.update_apply, swapIdx, hr, h2', hc]

theorem gaussStep_error (M : Aug) (col : Fin 8) (e : String) (h : gaussStep M col = .error e) :
    e = "Singular matrix" ∧ |M (findPivot M col) col.castSucc| < tol := by
  unfold gaussStep at h
  simp only at h
  split_ifs at h with h1
  injection h with h
  exact ⟨h.symm, h1⟩

theorem augmented_last (A b : ℕ → ℚ) (i : Fin 8) : augmented A b i 8 = b i.val := rfl

theorem applyH_eq_of_mul (Hm : Fin 9 → ℚ) (x y : ℚ) (p : Point)
    (hW : divisor Hm x y ≠ 0)
    (hx : Hm 0 * x + Hm 1 * y + Hm 2 = p.x * divisor Hm x y)
    (hy : Hm 3 * x + Hm 4 * y + Hm 5 = p.y * divisor Hm x y) :
    applyH Hm x y = some p := by
  unfold applyH
  unfold divisor at hW hx hy
  simp only
  rw [if_neg hW, hx, hy, mul_div_assoc, mul_div_assoc, div_self hW, mul_one, mul_one]

theorem fullQuad_run :
    computeHomography fullQuad (dstSq 50 50) = .ok ![100 / 49, 0, 0, 0, 100 / 49, 0, 0, 0, 1] := by
  decide!

theorem toInt32_of_range (n : ℤ) (h1 : -2 ^ 31 ≤ n) (h2 : n < 2 ^ 31) : toInt32 n = n := by
  unfold toInt32
  rw [Int.emod_eq_of_lt (by omega) (by omega)]
  ring

theorem shl2_of_range (v : ℤ) (h1 : 0 ≤ v) (h2 : 4 * v < 2 ^ 31) : shl2 v = 4 * v := by
  unfold shl2
  rw [toInt32_of_range v (by omega) (by omega), toInt32_of_range (v * 4) (by omega) (by omega)]
  ring

theorem pixel_index_range (w h xx yy : ℤ) (hx : 0 ≤ xx) (hx' : xx ≤ w - 1) (hy : 0 ≤ yy)
    (hy' : yy ≤ h - 1) : 0 ≤ yy * w + xx ∧ yy * w + xx ≤ w * h - 1 := by
  have hw : 0 ≤ w := by omega
  constructor
  · have := mul_nonneg hy hw
    omega
  · have h1 : yy * w ≤ (h - 1) * w := mul_le_mul_of_nonneg_right hy' hw
    have h2 : (h - 1) * w = w * h - w := by ring
    omega

theorem idx_of_range (w h xx yy : ℤ) (hx : 0 ≤ xx) (hx' : xx ≤ w - 1) (hy : 0 ≤ yy)
    (hy' : yy ≤ h - 1) (hsz : 4 * (w * h) < 2 ^ 31) :
    shl2 (yy * w + xx) = 4 * (yy * w + xx) ∧ 0 ≤ 4 * (yy * w + xx) ∧
      4 * (yy * w + xx) ≤ 4 * (w * h) - 4 := by
  obtain ⟨h1, h2⟩ := pixel_index_range w h xx yy hx hx' hy hy'
  refine ⟨shl2_of_range _ h1 (by omega), by omega, by omega⟩

theorem clamp_of_mem {α : Type} [LinearOrder α] (v a b : α) (h1 : a ≤ v) (h2 : v ≤ b) :
    clamp v a b = v := by
  unfold clamp
  rw [min_eq_right h2, max_eq_right h1]

theorem clamp_succ_range (v b : ℤ) (h1 : 0 ≤ v) (h2 : v ≤ b) :
    0 ≤ clamp (v + 1) 0 b ∧ clamp (v + 1) 0 b ≤ b := by
  unfold clamp
  constructor
  · exact le_max_left _ _
  · exact max_le (by omega) (min_le_left _ _)

theorem floor_range (x : ℚ) (w : ℕ) (h1 : 0 ≤ x) (h2 : x < w) :
    0 ≤ ⌊x⌋ ∧ ⌊x⌋ ≤ (w : ℤ) - 1 := by
  constructor
  · exact Int.floor_nonneg.mpr h1
  · have : ⌊x⌋ < (w : ℤ) := Int.floor_lt.mpr (by exact_mod_cast h2)
    omega

theorem valid_size (img : ImageData) (hv : img.Valid) :
    4 * ((img.width : ℤ) * (img.height : ℤ)) < 2 ^ 31 ∧
      (img.data.size : ℤ) = 4 * ((img.width : ℤ) * (img.height : ℤ)) := by
  obtain ⟨h1, h2, _⟩ := hv
  have e : (img.data.size : ℤ) = 4 * ((img.width : ℤ) * (img.height : ℤ)) := by
    rw [h1]; push_cast; ring
  constructor
  · rw [← e]; exact_mod_cast h2
  · exact e

/-- In-bounds coordinates: the four base indices are the byte offsets of the
pixels `(x0,y0)`, `(x1,y0)`, `(x0,y1)`, `(x1,y1)`, with `x0`, `y0` the floors and
`x1`, `y1` their clamped successors. -/
theorem taps_inBounds (img : ImageData) (hv : img.Valid) (x y : ℚ)
    (hx0 : 0 ≤ x) (hx1 : x < img.width) (hy0 : 0 ≤ y) (hy1 : y < img.height) :
    (taps img x y).i00 = 4 * (⌊y⌋ * img.width + ⌊x⌋) ∧
    (taps img x y).i10 = 4 * (⌊y⌋ * img.width + clamp (⌊x⌋ + 1) 0 ((img.width : ℤ) - 1)) ∧
    (taps img x y).i01 = 4 * (clamp (⌊y⌋ + 1) 0 ((img.height : ℤ) - 1) * img.width + ⌊x⌋) ∧
    (taps img x y).i11 = 4 * (clamp (⌊y⌋ + 1) 0 ((img.height : ℤ) - 1) * img.width +
      clamp (⌊x⌋ + 1) 0 ((img.width : ℤ) - 1)) := by
  obtain ⟨hsz, _⟩ := valid_size img hv
  obtain ⟨fx0, fx1⟩ := floor_range x img.width hx0 hx1
  obtain ⟨fy0, fy1⟩ := floor_range y img.height hy0 hy1
  obtain ⟨cx0, cx1⟩ := clamp_succ_range ⌊x⌋ _ fx0 fx1
  obtain ⟨cy0, cy1⟩ := clamp_succ_range ⌊y⌋ _ fy0 fy1
  unfold taps
  simp only
  rw [clamp_of_mem ⌊x⌋ 0 _ fx0 fx1, clamp_of_mem ⌊y⌋ 0 _ fy0 fy1]
  exact ⟨(idx_of_range _ _ _ _ fx0 fx1 fy0 fy1 hsz).1, (idx_of_range _ _ _ _ cx0 cx1 fy0 fy1 hsz).1,
    (idx_of_range _ _ _ _ fx0 fx1 cy0 cy1 hsz).1, (idx_of_range _ _ _ _ cx0 cx1 cy0 cy1 hsz).1⟩

theorem taps_range (img : ImageData) (hv : img.Valid) (x y : ℚ)
    (hx0 : 0 ≤ x) (hx1 : x < img.width) (hy0 : 0 ≤ y) (hy1 : y < img.height) :
    ∀ i ∈ [(taps img x y).i00, (taps img x y).i10, (taps img x y).i01, (taps img x y).i11],
      4 ∣ i ∧ 0 ≤ i ∧ i ≤ 4 * ((img.width : ℤ) * img.height) - 4 := by
  obtain ⟨hsz, _⟩ := valid_size img hv
  obtain ⟨fx0, fx1⟩ := floor_range x img.width hx0 hx1
  obtain ⟨fy0, fy1⟩ := floor_range y img.height hy0 hy1
  obtain ⟨cx0, cx1⟩ := clamp_succ_range ⌊x⌋ _ fx0 fx1
  obtain ⟨cy0, cy1⟩ := clamp_succ_range ⌊y⌋ _ fy0 fy1
  obtain ⟨e00, e10, e01, e11⟩ := taps_inBounds img hv x y hx0 hx1 hy0 hy1
  intro i hi
  simp only [List.mem_cons, List.mem_singleton, List.not_mem_nil, or_false] at hi
  rcases hi with rfl | rfl | rfl | rfl
  · rw [e00]
    exact ⟨Dvd.intro _ rfl, (idx_of_range _ _ _ _ fx0 fx1 fy0 fy1 hsz).2⟩
  · rw [e10]
    exact ⟨Dvd.intro _ rfl, (idx_of_range _ _ _ _ cx0 cx1 fy0 fy1 hsz).2⟩
  · rw [e01]
    exact ⟨Dvd.intro _ rfl, (idx_of_range _ _ _ _ fx0 fx1 cy0 cy1 hsz).2⟩
  · rw [e11]
    exact ⟨Dvd.intro _ rfl, (idx_of_range _ _ _ _ cx0 cx1 cy0 cy1 hsz).2⟩

theorem readData_of_range (data : Array ℕ) (i : ℤ) (h0 : 0 ≤ i) (h1 : i < data.size) :
    ∃ h : i.toNat < data.size, readData data i = some ((data[i.toNat] : ℕ) : ℚ) := by
  have h : i.toNat < data.size := by omega
  refine ⟨h, ?_⟩
  unfold readData
  rw [if_pos h0, Array.getElem?_eq_getElem h]
  rfl

/-! ## The sampler at in-bounds coordinates -/

theorem readData_pixel (img : ImageData) (hv : img.Valid) (m : ℤ) (h0 : 0 ≤ m)
    (h1 : m ≤ (img.width : ℤ) * img.height - 1) (k : Fin 4) :
    readData img.data (4 * m + (k.val : ℤ)) = some ((pixelByte img m.toNat k : ℕ) : ℚ) := by
  obtain ⟨_, hsz⟩ := valid_size img hv
  have hk : (k.val : ℤ) < 4 := by exact_mod_cast k.isLt
  have hk0 : (0 : ℤ) ≤ (k.val : ℤ) := by exact_mod_cast Nat.zero_le _
  obtain ⟨h, hr⟩ := readData_of_range img.data (4 * m + (k.val : ℤ)) (by omega) (by omega)
  rw [hr]
  have e : (4 * m + (k.val : ℤ)).toNat = 4 * m.toNat + k.val := by omega
  unfold pixelByte
  rw [Array.getD_eq_get?, ← e, Array.getElem?_eq_getElem h]
  rfl

theorem bilinearSample_inBounds (img : ImageData) (hv : img.Valid) (x y : ℚ)
    (hx0 : 0 ≤ x) (hx1 : x < img.width) (hy0 : 0 ≤ y) (hy1 : y < img.height) (k : Fin 4) :
    bilinearSample img x y k = some
      (lerp
        (lerp (pixelByte img (⌊y⌋ * img.width + ⌊x⌋).toNat k)
          (pixelByte img (⌊y⌋ * img.width + clamp (⌊x⌋ + 1) 0 ((img.width : ℤ) - 1)).toNat k)
          (clamp (x - ⌊x⌋) 0 1))
        (lerp (pixelByte img (clamp (⌊y⌋ + 1) 0 ((img.height : ℤ) - 1) * img.width + ⌊x⌋).toNat k)
          (pixelByte img (clamp (⌊y⌋ + 1) 0 ((img.height : ℤ) - 1) * img.width +
            clamp (⌊x⌋ + 1) 0 ((img.width : ℤ) - 1)).toNat k)
          (clamp (x - ⌊x⌋) 0 1))
        (clamp (y - ⌊y⌋) 0 1)) := by
  obtain ⟨fx0, fx1⟩ := floor_range x img.width hx0 hx1
  obtain ⟨fy0, fy1⟩ := floor_range y img.height hy0 hy1
  obtain ⟨cx0, cx1⟩ := clamp_succ_range ⌊x⌋ _ fx0 fx1
  obtain ⟨cy0, cy1⟩ := clamp_succ_range ⌊y⌋ _ fy0 fy1
  obtain ⟨e00, e10, e01, e11⟩ := taps_inBounds img hv x y hx0 hx1 hy0 hy1
  obtain ⟨a1, a2⟩ := pixel_index_range _ _ _ _ fx0 fx1 fy0 fy1
  obtain ⟨b1, b2⟩ := pixel_index_range _ _ _ _ cx0 cx1 fy0 fy1
  obtain ⟨c1, c2⟩ := pixel_index_range _ _ _ _ fx0 fx1 cy0 cy1
  obtain ⟨d1, d2⟩ := pixel_index_range _ _ _ _ cx0 cx1 cy0 cy1
  unfold bilinearSample
  simp only
  rw [e00, e10, e01, e11, readData_pixel img hv _ a1 a2 k, readData_pixel img hv _ b1 b2 k,
    readData_pixel img hv _ c1 c2 k, readData_pixel img hv _ d1 d2 k]
  rfl

theorem pixel_toNat_lt (w h m : ℤ) (h0 : 0 ≤ m) (h1 : m ≤ w * h - 1) (wn hn : ℕ)
    (hw : w = wn) (hh : h = hn) : m.toNat < wn * hn := by
  have : (m.toNat : ℤ) < ((wn * hn : ℕ) : ℤ) := by
    push_cast
    rw [← hw, ← hh]
    omega
  exact_mod_cast this

theorem bilinearSample_uniform (img : ImageData) (hv : img.Valid) (x y : ℚ)
    (hx0 : 0 ≤ x) (hx1 : x < img.width) (hy0 : 0 ≤ y) (hy1 : y < img.height) (k : Fin 4)
    (c : ℕ) (hc : ∀ n, n < img.width * img.height → pixelByte img n k = c) :
    bilinearSample img x y k = some (c : ℚ) := by
  obtain ⟨fx0, fx1⟩ := floor_range x img.width hx0 hx1
  obtain ⟨fy0, fy1⟩ := floor_range y img.height hy0 hy1
  obtain ⟨cx0, cx1⟩ := clamp_succ_range ⌊x⌋ _ fx0 fx1
  obtain ⟨cy0, cy1⟩ := clamp_succ_range ⌊y⌋ _ fy0 fy1
  obtain ⟨a1, a2⟩ := pixel_index_range _ _ _ _ fx0 fx1 fy0 fy1
  obtain ⟨b1, b2⟩ := pixel_index_range _ _ _ _ cx0 cx1 fy0 fy1
  obtain ⟨c1, c2⟩ := pixel_index_range _ _ _ _ fx0 fx1 cy0 cy1
  obtain ⟨d1, d2⟩ := pixel_index_range _ _ _ _ cx0 cx1 cy0 cy1
  rw [bilinearSample_inBounds img hv x y hx0 hx1 hy0 hy1 k,
    hc _ (pixel_toNat_lt _ _ _ a1 a2 _ _ rfl rfl), hc _ (pixel_toNat_lt _ _ _ b1 b2 _ _ rfl rfl),
    hc _ (pixel_toNat_lt _ _ _ c1 c2 _ _ rfl rfl), hc _ (pixel_toNat_lt _ _ _ d1 d2 _ _ rfl rfl)]
  unfold lerp
  congr 1
  ring

theorem roundHalfEven_natCast (c : ℕ) : roundHalfEven (c : ℚ) = c := by
  unfold roundHalfEven
  simp

theorem toUint8Clamped_byte (c : ℕ) (hc : c ≤ 255) : toUint8Clamped (some (c : ℚ)) = c := by
  unfold toUint8Clamped
  simp only
  rw [roundHalfEven_natCast, clamp_of_mem (c : ℤ) 0 255 (by omega) (by omega)]
  simp

theorem bilinearSample_grid (img : ImageData) (hv : img.Valid) (x y : ℕ)
    (hx : x < img.width) (hy : y < img.height) (k : Fin 4) :
    bilinearSample img x y k = some ((pixelByte img (y * img.width + x) k : ℕ) : ℚ) := by
  have hx0 : (0 : ℚ) ≤ (x : ℚ) := by exact_mod_cast Nat.zero_le x
  have hy0 : (0 : ℚ) ≤ (y : ℚ) := by exact_mod_cast Nat.zero_le y
  have hx1 : (x : ℚ) < img.width := by exact_mod_cast hx
  have hy1 : (y : ℚ) < img.height := by exact_mod_cast hy
  rw [bilinearSample_inBounds img hv x y hx0 hx1 hy0 hy1 k]
  have fx : ⌊(x : ℚ)⌋ = (x : ℤ) := Int.floor_natCast x
  have fy : ⌊(y : ℚ)⌋ = (y : ℤ) := Int.floor_natCast y
  rw [fx, fy]
  have tx : clamp ((x : ℚ) - ((x : ℤ) : ℚ)) 0 1 = 0 := by
    rw [clamp_of_mem] <;> simp
  have ty : clamp ((y : ℚ) - ((y : ℤ) : ℚ)) 0 1 = 0 := by
    rw [clamp_of_mem] <;> simp
  rw [tx, ty]
  have e : ((y : ℤ) * (img.width : ℤ) + (x : ℤ)).toNat = y * img.width + x := by
    have : ((y : ℤ) * (img.width : ℤ) + (x : ℤ)) = ((y * img.width + x : ℕ) : ℤ) := by push_cast; ring
    rw [this, Int.toNat_natCast]
  rw [e]
  unfold lerp
  congr 1
  ring

/-! ## The pivot search returns the first maximal row -/

theorem foldl_pivot_first (M : Aug) (col : Fin 8) (l : List (Fin 8)) :
    ∀ p0 : Fin 8, l.Pairwise (· < ·) → (∀ r ∈ l, col < r → p0 < r) →
      ∀ r : Fin 8, (r = p0 ∨ (r ∈ l ∧ col < r)) →
        r < l.foldl (fun piv r =>
          if col < r ∧ |M r col.castSucc| > |M piv col.castSucc| then r else piv) p0 →
        |M r col.castSucc| < |M (l.foldl (fun piv r =>
          if col < r ∧ |M r col.castSucc| > |M piv col.castSucc| then r else piv) p0)
            col.castSucc| := by
  induction l with
  | nil =>
    intro p0 _ _ r hr hlt
    simp only [List.foldl_nil] at hlt
    rcases hr with rfl | ⟨hr, _⟩
    · exact absurd hlt (lt_irrefl _)
    · cases hr
  | cons a l ih =>
    intro p0 hpw hgt r hr hlt
    simp only [List.foldl_cons] at hlt ⊢
    have hpw' : l.Pairwise (· < ·) := (List.pairwise_cons.mp hpw).2
    have hal : ∀ r ∈ l, a < r := (List.pairwise_cons.mp hpw).1
    by_cases hc : col < a ∧ |M a col.castSucc| > |M p0 col.castSucc|
    · rw [if_pos hc] at hlt ⊢
      have hmono := (foldl_pivot M col l a (le_of_lt hc.1)).2.1
      have ih' := ih a hpw' (fun r hr _ => hal r hr)
      rcases hr with rfl | ⟨hr, hcr⟩
      · exact lt_of_lt_of_le hc.2 hmono
      · rcases List.mem_cons.mp hr with rfl | hr
        · exact ih' r (Or.inl rfl) hlt
        · exact ih' r (Or.inr ⟨hr, hcr⟩) hlt
    · rw [if_neg hc] at hlt ⊢
      have ih' := ih p0 hpw' (fun r hr h => hgt r (List.mem_cons_of_mem _ hr) h)
      rcases hr with rfl | ⟨hr, hcr⟩
      · exact ih' r (Or.inl rfl) hlt
      · rcases List.mem_cons.mp hr with rfl | hr
        · have h1 : |M r col.castSucc| ≤ |M p0 col.castSucc| :=
            not_lt.mp (fun h => hc ⟨hcr, h⟩)
          have h2 : p0 < r := hgt r (List.mem_cons_self _ _) hcr
          exact lt_of_le_of_lt h1 (ih' p0 (Or.inl rfl) (lt_trans h2 hlt))
        · exact ih' r (Or.inr ⟨hr, hcr⟩) hlt

theorem indices_pairwise : indices.Pairwise (· < ·) := by
  unfold indices
  decide

/-- The pivot search returns the first row, among the rows `r ≥ col`, whose entry
in column `col` has the largest absolute value. -/
theorem findPivot_eq (M : Aug) (col p : Fin 8) (hp : col ≤ p)
    (h1 : ∀ r : Fin 8, col ≤ r → r < p → |M r col.castSucc| < |M p col.castSucc|)
    (h2 : ∀ r : Fin 8, p < r → |M r col.castSucc| ≤ |M p col.castSucc|) :
    findPivot M col = p := by
  have hge := findPivot_ge M col
  have hmax := findPivot_max M col
  have hfirst : ∀ r : Fin 8, col ≤ r → r < findPivot M col →
      |M r col.castSucc| < |M (findPivot M col) col.castSucc| := by
    intro r hr hlt
    apply foldl_pivot_first M col indices col indices_pairwise (fun r _ h => h) r _ hlt
    rcases eq_or_lt_of_le hr with e | e
    · exact Or.inl e.symm
    · exact Or.inr ⟨mem_indices r, e⟩
  rcases lt_trichotomy (findPivot M col) p with h | h | h
  · exact absurd (h1 _ hge h) (not_lt.mpr (hmax p hp))
  · exact h
  · exact absurd (hfirst p hp h) (not_lt.mpr (h2 _ h))

/-! ## The elimination on the identity correspondence -/

theorem gaussStep_eq (M M' : Aug) (col p : Fin 8) (hp : findPivot M col = p)
    (ht : tol ≤ |M p col.castSucc|)
    (hrows : ∀ r c, M' r c =
      if r = col then (if col.castSucc ≤ c then M p c / M p col.castSucc else M p c)
      else if col.castSucc ≤ c then
        M (swapIdx col p r) c - M (swapIdx col p r) col.castSucc * (M p c / M p col.castSucc)
      else M (swapIdx col p r) c) :
    gaussStep M col = .ok M' := by
  cases h : gaussStep M col with
  | error e =>
    have := (gaussStep_error M col e h).2
    rw [hp] at this
    exact absurd this (not_lt.mpr ht)
  | ok M'' =>
    have h2 := (gaussStep_ok M M'' col h).2
    rw [hp] at h2
    congr 1
    funext r c
    rw [h2 r c, hrows r c]

theorem fin8_val_3 : (((3 : Fin 8)) : ℕ) = 3 := rfl

theorem fin8_val_4 : (((4 : Fin 8)) : ℕ) = 4 := rfl

theorem fin8_val_5 : (((5 : Fin 8)) : ℕ) = 5 := rfl

theorem fin8_val_6 : (((6 : Fin 8)) : ℕ) = 6 := rfl

theorem fin8_val_7 : (((7 : Fin 8)) : ℕ) = 7 := rfl

theorem fin9_val_3 : (((3 : Fin 9)) : ℕ) = 3 := rfl

theorem fin9_val_4 : (((4 : Fin 9)) : ℕ) = 4 := rfl

theorem fin9_val_5 : (((5 : Fin 9)) : ℕ) = 5 := rfl

theorem fin9_val_6 : (((6 : Fin 9)) : ℕ) = 6 := rfl

theorem fin9_val_7 : (((7 : Fin 9)) : ℕ) = 7 := rfl

theorem fin9_val_8 : (((8 : Fin 9)) : ℕ) = 8 := rfl

theorem castSucc_2 : Fin.castSucc (2 : Fin 8) = (2 : Fin 9) := rfl

theorem castSucc_3 : Fin.castSucc (3 : Fin 8) = (3 : Fin 9) := rfl

theorem castSucc_4 : Fin.castSucc (4 : Fin 8) = (4 : Fin 9) := rfl

theorem castSucc_5 : Fin.castSucc (5 : Fin 8) = (5 : Fin 9) := rfl

theorem castSucc_6 : Fin.castSucc (6 : Fin 8) = (6 : Fin 9) := rfl

theorem castSucc_7 : Fin.castSucc (7 : Fin 8) = (7 : Fin 9) := rfl

theorem tol_le_abs (x : ℚ) (h : 1 ≤ x) : tol ≤ |x| := by
  rw [abs_of_pos (lt_of_lt_of_le one_pos h)]
  unfold tol
  linarith

theorem idPivot0 (a c : ℚ) (ha : 1 ≤ a) (hc : 1 ≤ c) : findPivot (idS0 a c) 0 = 2 := by
  have ha0 : a ≠ 0 := by intro h; rw [h] at ha; norm_num at ha
  have hc0 : c ≠ 0 := by intro h; rw [h] at hc; norm_num at hc
  apply findPivot_eq
  · decide
  · intro r hr hlt
    fin_cases r <;> first
      | (exact absurd hlt (by decide))
      | (exact absurd hr (by decide))
      | simp [idS0, rows8, row9, ha0, hc0, fin8_val_3, fin8_val_4, fin8_val_5, fin8_val_6, fin8_val_7, fin9_val_3, fin9_val_4, fin9_val_5, fin9_val_6, fin9_val_7, fin9_val_8, castSucc_2, castSucc_3, castSucc_4, castSucc_5, castSucc_6, castSucc_7]
  · intro r hlt
    fin_cases r <;> first
      | (exact absurd hlt (by decide))
      | simp [idS0, rows8, row9, fin8_val_3, fin8_val_4, fin8_val_5, fin8_val_6, fin8_val_7, fin9_val_3, fin9_val_4, fin9_val_5, fin9_val_6, fin9_val_7, fin9_val_8, castSucc_2, castSucc_3, castSucc_4, castSucc_5, castSucc_6, castSucc_7]

set_option maxHeartbeats 4000000 in
theorem idStep0 (a c : ℚ) (ha : 1 ≤ a) (hc : 1 ≤ c) :
    gaussStep (idS0 a c) 0 = .ok (idS1 a c) := by
  have ha0 : a ≠ 0 := by intro h; rw [h] at ha; norm_num at ha
  have hc0 : c ≠ 0 := by intro h; rw [h] at hc; norm_num at hc
  have hac : 1 ≤ a * c := one_le_mul_of_one_le_of_one_le ha hc
  apply gaussStep_eq _ _ 0 2 (idPivot0 a c ha hc)
  · have e : idS0 a c 2 (Fin.castSucc 0) = a := by
      simp [idS0, rows8, row9, fin8_val_3, fin8_val_4, fin8_val_5, fin8_val_6, fin8_val_7, fin9_val_3, fin9_val_4, fin9_val_5, fin9_val_6, fin9_val_7, fin9_val_8, castSucc_2, castSucc_3, castSucc_4, castSucc_5, castSucc_6, castSucc_7]
    rw [e]
    exact tol_le_abs _ (ha)
  · intro r cc
    fin_cases r <;> fin_cases cc <;>
      simp [idS0, idS1, rows8, row9, swapIdx, fin8_val_3, fin8_val_4, fin8_val_5, fin8_val_6, fin8_val_7, fin9_val_3, fin9_val_4, fin9_val_5, fin9_val_6, fin9_val_7, fin9_val_8, castSucc_2, castSucc_3, castSucc_4, castSucc_5, castSucc_6, castSucc_7] <;>
      (try field_simp) <;> (try ring)

theorem idPivot1 (a c : ℚ) (ha : 1 ≤ a) (hc : 1 ≤ c) : findPivot (idS1 a c) 1 = 4 := by
  have ha0 : a ≠ 0 := by intro h; rw [h] at ha; norm_num at ha
  have hc0 : c ≠ 0 := by intro h; rw [h] at hc; norm_num at hc
  apply findPivot_eq
  · decide
  · intro r hr hlt
    fin_cases r <;> first
      | (exact absurd hlt (by decide))
      | (exact absurd hr (by decide))
      | simp [idS1, rows8, row9, ha0, hc0, fin8_val_3, fin8_val_4, fin8_val_5, fin8_val_6, fin8_val_7, fin9_val_3, fin9_val_4, fin9_val_5, fin9_val_6, fin9_val_7, fin9_val_8, castSucc_2, castSucc_3, castSucc_4, castSucc_5, castSucc_6, castSucc_7]
  · intro r hlt
    fin_cases r <;> first
      | (exact absurd hlt (by decide))
      | simp [idS1, rows8, row9, fin8_val_3, fin8_val_4, fin8_val_5, fin8_val_6, fin8_val_7, fin9_val_3, fin9_val_4, fin9_val_5, fin9_val_6, fin9_val_7, fin9_val_8, castSucc_2, castSucc_3, castSucc_4, castSucc_5, castSucc_6, castSucc_7]

set_option maxHeartbeats 4000000 in
theorem idStep1 (a c : ℚ) (ha : 1 ≤ a) (hc : 1 ≤ c) :
    gaussStep (idS1 a c) 1 = .ok (idS2 a c) := by
  have ha0 : a ≠ 0 := by intro h; rw [h] at ha; norm_num at ha
  have hc0 : c ≠ 0 := by intro h; rw [h] at hc; norm_num at hc
  have hac : 1 ≤ a * c := one_le_mul_of_one_le_of_one_le ha hc
  apply gaussStep_eq _ _ 1 4 (idPivot1 a c ha hc)
  · have e : idS1 a c 4 (Fin.castSucc 1) = c := by
      simp [idS1, rows8, row9, fin8_val_3, fin8_val_4, fin8_val_5, fin8_val_6, fin8_val_7, fin9_val_3, fin9_val_4, fin9_val_5, fin9_val_6, fin9_val_7, fin9_val_8, castSucc_2, castSucc_3, castSucc_4, castSucc_5, castSucc_6, castSucc_7]
    rw [e]
    exact tol_le_abs _ (hc)
  · intro r cc
    fin_cases r <;> fin_cases cc <;>
      simp [idS1, idS2, rows8, row9, swapIdx, fin8_val_3, fin8_val_4, fin8_val_5, fin8_val_6, fin8_val_7, fin9_val_3, fin9_val_4, fin9_val_5, fin9_val_6, fin9_val_7, fin9_val_8, castSucc_2, castSucc_3, castSucc_4, castSucc_5, castSucc_6, castSucc_7] <;>
      (try field_simp) <;> (try ring)

theorem idPivot2 (a c : ℚ) (ha : 1 ≤ a) (hc : 1 ≤ c) : findPivot (idS2 a c) 2 = 2 := by
  have ha0 : a ≠ 0 := by intro h; rw [h] at ha; norm_num at ha
  have hc0 : c ≠ 0 := by intro h; rw [h] at hc; norm_num at hc
  apply findPivot_eq
  · decide
  · intro r hr hlt
    fin_cases r <;> first
      | (exact absurd hlt (by decide))
      | (exact absurd hr (by decide))
      | simp [idS2, rows8, row9, ha0, hc0, fin8_val_3, fin8_val_4, fin8_val_5, fin8_val_6, fin8_val_7, fin9_val_3, fin9_val_4, fin9_val_5, fin9_val_6, fin9_val_7, fin9_val_8, castSucc_2, castSucc_3, castSucc_4, castSucc_5, castSucc_6, castSucc_7]
  · intro r hlt
    fin_cases r <;> first
      | (exact absurd hlt (by decide))
      | simp [idS2, rows8, row9, fin8_val_3, fin8_val_4, fin8_val_5, fin8_val_6, fin8_val_7, fin9_val_3, fin9_val_4, fin9_val_5, fin9_val_6, fin9_val_7, fin9_val_8, castSucc_2, castSucc_3, castSucc_4, castSucc_5, castSucc_6, castSucc_7]

set_option maxHeartbeats 4000000 in
theorem idStep2 (a c : ℚ) (ha : 1 ≤ a) (hc : 1 ≤ c) :
    gaussStep (idS2 a c) 2 = .ok (idS3 a c) := by
  have ha0 : a ≠ 0 := by intro h; rw [h] at ha; norm_num at ha
  have hc0 : c ≠ 0 := by intro h; rw [h] at hc; norm_num at hc
  have hac : 1 ≤ a * c := one_le_mul_of_one_le_of_one_le ha hc
  apply gaussStep_eq _ _ 2 2 (idPivot2 a c ha hc)
  · have e : idS2 a c 2 (Fin.castSucc 2) = 1 := by
      simp [idS2, rows8, row9, fin8_val_3, fin8_val_4, fin8_val_5, fin8_val_6, fin8_val_7, fin9_val_3, fin9_val_4, fin9_val_5, fin9_val_6, fin9_val_7, fin9_val_8, castSucc_2, castSucc_3, castSucc_4, castSucc_5, castSucc_6, castSucc_7]
    rw [e]
    exact tol_le_abs _ (le_refl 1)
  · intro r cc
    fin_cases r <;> fin_cases cc <;>
      simp [idS2, idS3, rows8, row9, swapIdx, fin8_val_3, fin8_val_4, fin8_val_5, fin8_val_6, fin8_val_7, fin9_val_3, fin9_val_4, fin9_val_5, fin9_val_6, fin9_val_7, fin9_val_8, castSucc_2, castSucc_3, castSucc_4, castSucc_5, castSucc_6, castSucc_7] <;>
      (try field_simp) <;> (try ring)

theorem idPivot3 (a c : ℚ) (ha : 1 ≤ a) (hc : 1 ≤ c) : findPivot (idS3 a c) 3 = 3 := by
  have ha0 : a ≠ 0 := by intro h; rw [h] at ha; norm_num at ha
  have hc0 : c ≠ 0 := by intro h; rw [h] at hc; norm_num at hc
  apply findPivot_eq
  · decide
  · intro r hr hlt
    fin_cases r <;> first
      | (exact absurd hlt (by decide))
      | (exact absurd hr (by decide))
      | simp [idS3, rows8, row9, ha0, hc0, fin8_val_3, fin8_val_4, fin8_val_5, fin8_val_6, fin8_val_7, fin9_val_3, fin9_val_4, fin9_val_5, fin9_val_6, fin9_val_7, fin9_val_8, castSucc_2, castSucc_3, castSucc_4, castSucc_5, castSucc_6, castSucc_7]
  · intro r hlt
    fin_cases r <;> first
      | (exact absurd hlt (by decide))
      | simp [idS3, rows8, row9, fin8_val_3, fin8_val_4, fin8_val_5, fin8_val_6, fin8_val_7, fin9_val_3, fin9_val_4, fin9_val_5, fin9_val_6, fin9_val_7, fin9_val_8, castSucc_2, castSucc_3, castSucc_4, castSucc_5, castSucc_6, castSucc_7]

set_option maxHeartbeats 4000000 in
theorem idStep3 (a c : ℚ) (ha : 1 ≤ a) (hc : 1 ≤ c) :
    gaussStep (idS3 a c) 3 = .ok (idS4 a c) := by
  have ha0 : a ≠ 0 := by intro h; rw [h] at ha; norm_num at ha
  have hc0 : c ≠ 0 := by intro h; rw [h] at hc; norm_num at hc
  have hac : 1 ≤ a * c := one_le_mul_of_one_le_of_one_le ha hc
  apply gaussStep_eq _ _ 3 3 (idPivot3 a c ha hc)
  · have e : idS3 a c 3 (Fin.castSucc 3) = a := by
      simp [idS3, rows8, row9, fin8_val_3, fin8_val_4, fin8_val_5, fin8_val_6, fin8_val_7, fin9_val_3, fin9_val_4, fin9_val_5, fin9_val_6, fin9_val_7, fin9_val_8, castSucc_2, castSucc_3, castSucc_4, castSucc_5, castSucc_6, castSucc_7]
    rw [e]
    exact tol_le_abs _ (ha)
  · intro r cc
    fin_cases r <;> fin_cases cc <;>
      simp [idS3, idS4, rows8, row9, swapIdx, fin8_val_3, fin8_val_4, fin8_val_5, fin8_val_6, fin8_val_7, fin9_val_3, fin9_val_4, fin9_val_5, fin9_val_6, fin9_val_7, fin9_val_8, castSucc_2, castSucc_3, castSucc_4, castSucc_5, castSucc_6, castSucc_7] <;>
      (try field_simp) <;> (try ring)

theorem idPivot4 (a c : ℚ) (ha : 1 ≤ a) (hc : 1 ≤ c) : findPivot (idS4 a c) 4 = 5 := by
  have ha0 : a ≠ 0 := by intro h; rw [h] at ha; norm_num at ha
  have hc0 : c ≠ 0 := by intro h; rw [h] at hc; norm_num at hc
  apply findPivot_eq
  · decide
  · intro r hr hlt
    fin_cases r <;> first
      | (exact absurd hlt (by decide))
      | (exact absurd hr (by decide))
      | simp [idS4, rows8, row9, ha0, hc0, fin8_val_3, fin8_val_4, fin8_val_5, fin8_val_6, fin8_val_7, fin9_val_3, fin9_val_4, fin9_val_5, fin9_val_6, fin9_val_7, fin9_val_8, castSucc_2, castSucc_3, castSucc_4, castSucc_5, castSucc_6, castSucc_7]
  · intro r hlt
    fin_cases r <;> first
      | (exact absurd hlt (by decide))
      | simp [idS4, rows8, row9, fin8_val_3, fin8_val_4, fin8_val_5, fin8_val_6, fin8_val_7, fin9_val_3, fin9_val_4, fin9_val_5, fin9_val_6, fin9_val_7, fin9_val_8, castSucc_2, castSucc_3, castSucc_4, castSucc_5, castSucc_6, castSucc_7]

set_option maxHeartbeats 4000000 in
theorem idStep4 (a c : ℚ) (ha : 1 ≤ a) (hc : 1 ≤ c) :
    gaussStep (idS4 a c) 4 = .ok (idS5 a c) := by
  have ha0 : a ≠ 0 := by intro h; rw [h] at ha; norm_num at ha
  have hc0 : c ≠ 0 := by intro h; rw [h] at hc; norm_num at hc
  have hac : 1 ≤ a * c := one_le_mul_of_one_le_of_one_le ha hc
  apply gaussStep_eq _ _ 4 5 (idPivot4 a c ha hc)
  · have e : idS4 a c 5 (Fin.castSucc 4) = c := by
      simp [idS4, rows8, row9, fin8_val_3, fin8_val_4, fin8_val_5, fin8_val_6, fin8_val_7, fin9_val_3, fin9_val_4, fin9_val_5, fin9_val_6, fin9_val_7, fin9_val_8, castSucc_2, castSucc_3, castSucc_4, castSucc_5, castSucc_6, castSucc_7]
    rw [e]
    exact tol_le_abs _ (hc)
  · intro r cc
    fin_cases r <;> fin_cases cc <;>
      simp [idS4, idS5, rows8, row9, swapIdx, fin8_val_3, fin8_val_4, fin8_val_5, fin8_val_6, fin8_val_7, fin9_val_3, fin9_val_4, fin9_val_5, fin9_val_6, fin9_val_7, fin9_val_8, castSucc_2, castSucc_3, castSucc_4, castSucc_5, castSucc_6, castSucc_7] <;>
      (try field_simp) <;> (try ring)

theorem idPivot5 (a c : ℚ) (ha : 1 ≤ a) (hc : 1 ≤ c) : findPivot (idS5 a c) 5 = 5 := by
  have ha0 : a ≠ 0 := by intro h; rw [h] at ha; norm_num at ha
  have hc0 : c ≠ 0 := by intro h; rw [h] at hc; norm_num at hc
  apply findPivot_eq
  · decide
  · intro r hr hlt
    fin_cases r <;> first
      | (exact absurd hlt (by decide))
      | (exact absurd hr (by decide))
      | simp [idS5, rows8, row9, ha0, hc0, fin8_val_3, fin8_val_4, fin8_val_5, fin8_val_6, fin8_val_7, fin9_val_3, fin9_val_4, fin9_val_5, fin9_val_6, fin9_val_7, fin9_val_8, castSucc_2, castSucc_3, castSucc_4, castSucc_5, castSucc_6, castSucc_7]
  · intro r hlt
    fin_cases r <;> first
      | (exact absurd hlt (by decide))
      | simp [idS5, rows8, row9, fin8_val_3, fin8_val_4, fin8_val_5, fin8_val_6, fin8_val_7, fin9_val_3, fin9_val_4, fin9_val_5, fin9_val_6, fin9_val_7, fin9_val_8, castSucc_2, castSucc_3, castSucc_4, castSucc_5, castSucc_6, castSucc_7]

set_option maxHeartbeats 4000000 in
theorem idStep5 (a c : ℚ) (ha : 1 ≤ a) (hc : 1 ≤ c) :
    gaussStep (idS5 a c) 5 = .ok (idS6 a c) := by
  have ha0 : a ≠ 0 := by intro h; rw [h] at ha; norm_num at ha
  have hc0 : c ≠ 0 := by intro h; rw [h] at hc; norm_num at hc
  have hac : 1 ≤ a * c := one_le_mul_of_one_le_of_one_le ha hc
  apply gaussStep_eq _ _ 5 5 (idPivot5 a c ha hc)
  · have e : idS5 a c 5 (Fin.castSucc 5) = 1 := by
      simp [idS5, rows8, row9, fin8_val_3, fin8_val_4, fin8_val_5, fin8_val_6, fin8_val_7, fin9_val_3, fin9_val_4, fin9_val_5, fin9_val_6, fin9_val_7, fin9_val_8, castSucc_2, castSucc_3, castSucc_4, castSucc_5, castSucc_6, castSucc_7]
    rw [e]
    exact tol_le_abs _ (le_refl 1)
  · intro r cc
    fin_cases r <;> fin_cases cc <;>
      simp [idS5, idS6, rows8, row9, swapIdx, fin8_val_3, fin8_val_4, fin8_val_5, fin8_val_6, fin8_val_7, fin9_val_3, fin9_val_4, fin9_val_5, fin9_val_6, fin9_val_7, fin9_val_8, castSucc_2, castSucc_3, castSucc_4, castSucc_5, castSucc_6, castSucc_7] <;>
      (try field_simp) <;> (try ring)

theorem idPivot6 (a c : ℚ) (ha : 1 ≤ a) (hc : 1 ≤ c) : findPivot (idS6 a c) 6 = 7 := by
  have ha0 : a ≠ 0 := by intro h; rw [h] at ha; norm_num at ha
  have hc0 : c ≠ 0 := by intro h; rw [h] at hc; norm_num at hc
  apply findPivot_eq
  · decide
  · intro r hr hlt
    fin_cases r <;> first
      | (exact absurd hlt (by decide))
      | (exact absurd hr (by decide))
      | simp [idS6, rows8, row9, ha0, hc0, fin8_val_3, fin8_val_4, fin8_val_5, fin8_val_6, fin8_val_7, fin9_val_3, fin9_val_4, fin9_val_5, fin9_val_6, fin9_val_7, fin9_val_8, castSucc_2, castSucc_3, castSucc_4, castSucc_5, castSucc_6, castSucc_7]
  · intro r hlt
    fin_cases r <;> first
      | (exact absurd hlt (by decide))
      | simp [idS6, rows8, row9, fin8_val_3, fin8_val_4, fin8_val_5, fin8_val_6, fin8_val_7, fin9_val_3, fin9_val_4, fin9_val_5, fin9_val_6, fin9_val_7, fin9_val_8, castSucc_2, castSucc_3, castSucc_4, castSucc_5, castSucc_6, castSucc_7]

set_option maxHeartbeats 4000000 in
theorem idStep6 (a c : ℚ) (ha : 1 ≤ a) (hc : 1 ≤ c) :
    gaussStep (idS6 a c) 6 = .ok (idS7 a c) := by
  have ha0 : a ≠ 0 := by intro h; rw [h] at ha; norm_num at ha
  have hc0 : c ≠ 0 := by intro h; rw [h] at hc; norm_num at hc
  have hac : 1 ≤ a * c := one_le_mul_of_one_le_of_one_le ha hc
  apply gaussStep_eq _ _ 6 7 (idPivot6 a c ha hc)
  · have e : idS6 a c 7 (Fin.castSucc 6) = a*c := by
      simp [idS6, rows8, row9, fin8_val_3, fin8_val_4, fin8_val_5, fin8_val_6, fin8_val_7, fin9_val_3, fin9_val_4, fin9_val_5, fin9_val_6, fin9_val_7, fin9_val_8, castSucc_2, castSucc_3, castSucc_4, castSucc_5, castSucc_6, castSucc_7]
    rw [e]
    exact tol_le_abs _ (hac)
  · intro r cc
    fin_cases r <;> fin_cases cc <;>
      simp [idS6, idS7, rows8, row9, swapIdx, fin8_val_3, fin8_val_4, fin8_val_5, fin8_val_6, fin8_val_7, fin9_val_3, fin9_val_4, fin9_val_5, fin9_val_6, fin9_val_7, fin9_val_8, castSucc_2, castSucc_3, castSucc_4, castSucc_5, castSucc_6, castSucc_7] <;>
      (try field_simp) <;> (try ring)

theorem idPivot7 (a c : ℚ) (ha : 1 ≤ a) (hc : 1 ≤ c) : findPivot (idS7 a c) 7 = 7 := by
  have ha0 : a ≠ 0 := by intro h; rw [h] at ha; norm_num at ha
  have hc0 : c ≠ 0 := by intro h; rw [h] at hc; norm_num at hc
  apply findPivot_eq
  · decide
  · intro r hr hlt
    fin_cases r <;> first
      | (exact absurd hlt (by decide))
      | (exact absurd hr (by decide))
      | simp [idS7, rows8, row9, ha0, hc0, fin8_val_3, fin8_val_4, fin8_val_5, fin8_val_6, fin8_val_7, fin9_val_3, fin9_val_4, fin9_val_5, fin9_val_6, fin9_val_7, fin9_val_8, castSucc_2, castSucc_3, castSucc_4, castSucc_5, castSucc_6, castSucc_7]
  · intro r hlt
    fin_cases r <;> first
      | (exact absurd hlt (by decide))
      | simp [idS7, rows8, row9, fin8_val_3, fin8_val_4, fin8_val_5, fin8_val_6, fin8_val_7, fin9_val_3, fin9_val_4, fin9_val_5, fin9_val_6, fin9_val_7, fin9_val_8, castSucc_2, castSucc_3, castSucc_4, castSucc_5, castSucc_6, castSucc_7]

set_option maxHeartbeats 4000000 in
theorem idStep7 (a c : ℚ) (ha : 1 ≤ a) (hc : 1 ≤ c) :
    gaussStep (idS7 a c) 7 = .ok (idS8 a c) := by
  have ha0 : a ≠ 0 := by intro h; rw [h] at ha; norm_num at ha
  have hc0 : c ≠ 0 := by intro h; rw [h] at hc; norm_num at hc
  have hac : 1 ≤ a * c := one_le_mul_of_one_le_of_one_le ha hc
  apply gaussStep_eq _ _ 7 7 (idPivot7 a c ha hc)
  · have e : idS7 a c 7 (Fin.castSucc 7) = a*c := by
      simp [idS7, rows8, row9, fin8_val_3, fin8_val_4, fin8_val_5, fin8_val_6, fin8_val_7, fin9_val_3, fin9_val_4, fin9_val_5, fin9_val_6, fin9_val_7, fin9_val_8, castSucc_2, castSucc_3, castSucc_4, castSucc_5, castSucc_6, castSucc_7]
    rw [e]
    exact tol_le_abs _ (hac)
  · intro r cc
    fin_cases r <;> fin_cases cc <;>
      simp [idS7, idS8, rows8, row9, swapIdx, fin8_val_3, fin8_val_4, fin8_val_5, fin8_val_6, fin8_val_7, fin9_val_3, fin9_val_4, fin9_val_5, fin9_val_6, fin9_val_7, fin9_val_8, castSucc_2, castSucc_3, castSucc_4, castSucc_5, castSucc_6, castSucc_7] <;>
      (try field_simp) <;> (try ring)

/-! ## The identity homography -/

theorem augmented_buildSystem (s d : Quad) :
    augmented (buildSystem s d).1 (buildSystem s d).2 = systemRows s d := by
  funext r cc
  fin_cases r <;> fin_cases cc <;> rfl

theorem systemRows_identity (W H : ℕ) :
    systemRows (dstSq W H) (dstSq W H) = idS0 ((W : ℚ) - 1) ((H : ℚ) - 1) := by
  have d0 : dstSq W H 0 = ⟨0, 0⟩ := rfl
  have d1 : dstSq W H 1 = ⟨(W : ℚ) - 1, 0⟩ := rfl
  have d2 : dstSq W H 2 = ⟨(W : ℚ) - 1, (H : ℚ) - 1⟩ := rfl
  have d3 : dstSq W H 3 = ⟨0, (H : ℚ) - 1⟩ := rfl
  unfold systemRows idS0
  rw [d0, d1, d2, d3]
  congr 1 <;> congr 1 <;> ring

theorem foldlM_cons_ok (f : Aug → Fin 8 → Except String Aug) (M M1 : Aug) (x : Fin 8)
    (l : List (Fin 8)) (h : f M x = .ok M1) : (x :: l).foldlM f M = l.foldlM f M1 := by
  rw [List.foldlM_cons, h]
  rfl

theorem identity_run (a c : ℚ) (ha : 1 ≤ a) (hc : 1 ≤ c) :
    indices.foldlM gaussStep (idS0 a c) = .ok (idS8 a c) := by
  unfold indices
  rw [foldlM_cons_ok _ _ _ _ _ (idStep0 a c ha hc), foldlM_cons_ok _ _ _ _ _ (idStep1 a c ha hc),
    foldlM_cons_ok _ _ _ _ _ (idStep2 a c ha hc), foldlM_cons_ok _ _ _ _ _ (idStep3 a c ha hc),
    foldlM_cons_ok _ _ _ _ _ (idStep4 a c ha hc), foldlM_cons_ok _ _ _ _ _ (idStep5 a c ha hc),
    foldlM_cons_ok _ _ _ _ _ (idStep6 a c ha hc), foldlM_cons_ok _ _ _ _ _ (idStep7 a c ha hc)]
  rfl

theorem computeHomography_identity (W H : ℕ) (hW : 2 ≤ W) (hH : 2 ≤ H) :
    computeHomography (dstSq W H) (dstSq W H) = .ok identityH := by
  have ha : (1 : ℚ) ≤ (W : ℚ) - 1 := by
    have : (2 : ℚ) ≤ (W : ℚ) := by exact_mod_cast hW
    linarith
  have hc : (1 : ℚ) ≤ (H : ℚ) - 1 := by
    have : (2 : ℚ) ≤ (H : ℚ) := by exact_mod_cast hH
    linarith
  unfold computeHomography gaussianSolve
  simp only
  rw [augmented_buildSystem, systemRows_identity, identity_run _ _ ha hc]
  rfl

/-! ## Rendering -/

theorem pixelByte_le (img : ImageData) (hv : img.Valid) (n : ℕ) (k : Fin 4) :
    pixelByte img n k ≤ 255 := by
  unfold pixelByte
  rw [Array.getD_eq_get?]
  by_cases h : 4 * n + k.val < img.data.size
  · rw [Array.getElem?_eq_getElem h]
    exact hv.2.2 _ h
  · rw [getElem?_neg img.data _ h]
    exact Nat.zero_le _

theorem renderOutput_ok (img : ImageData) (q : Quad) (W H : ℕ) (Hm : Fin 9 → ℚ)
    (h : computeHomography q (dstSq W H) = .ok Hm) :
    renderOutput img q W H = .ok { width := W, height := H, pixel := renderPixel img Hm } := by
  unfold renderOutput
  rw [h]

theorem renderPixel_inBounds (img : ImageData) (Hm : Fin 9 → ℚ) (x y : ℕ) (k : Fin 4)
    (p : Point) (hp : applyH Hm x y = some p)
    (hx0 : 0 ≤ p.x) (hx1 : p.x < img.width) (hy0 : 0 ≤ p.y) (hy1 : p.y < img.height) :
    renderPixel img Hm x y k = toUint8Clamped (bilinearSample img p.x p.y k) := by
  unfold renderPixel
  rw [hp]
  simp only
  rw [if_neg]
  intro h
  rcases h with h | h | h | h
  · exact absurd h (not_lt.mpr hx0)
  · exact absurd h (not_lt.mpr hy0)
  · exact absurd hx1 (not_lt.mpr h)
  · exact absurd hy1 (not_lt.mpr h)

theorem renderPixel_outside (img : ImageData) (Hm : Fin 9 → ℚ) (x y : ℕ) (k : Fin 4)
    (p : Point) (hp : applyH Hm x y = some p)
    (hout : p.x < 0 ∨ p.y < 0 ∨ p.x ≥ img.width ∨ p.y ≥ img.height) :
    renderPixel img Hm x y k = 0 := by
  unfold renderPixel
  rw [hp]
  simp only
  rw [if_pos hout]

theorem applyH_identity (x y : ℚ) : applyH identityH x y = some ⟨x, y⟩ := by
  apply applyH_eq_of_mul
  · show identityH 6 * x + identityH 7 * y + 1 ≠ 0
    show (0 : ℚ) * x + 0 * y + 1 ≠ 0
    norm_num
  · show (1 : ℚ) * x + 0 * y + 0 = x * (0 * x + 0 * y + 1)
    ring
  · show (0 : ℚ) * x + 1 * y + 0 = y * (0 * x + 0 * y + 1)
    ring

theorem renderPixel_identity (img : ImageData) (hv : img.Valid) (x y : ℕ)
    (hx : x < img.width) (hy : y < img.height) (k : Fin 4) :
    renderPixel img identityH x y k = pixelByte img (y * img.width + x) k := by
  have hx0 : (0 : ℚ) ≤ (x : ℚ) := by exact_mod_cast Nat.zero_le x
  have hy0 : (0 : ℚ) ≤ (y : ℚ) := by exact_mod_cast Nat.zero_le y
  have hx1 : (x : ℚ) < img.width := by exact_mod_cast hx
  have hy1 : (y : ℚ) < img.height := by exact_mod_cast hy
  rw [renderPixel_inBounds img identityH x y k ⟨x, y⟩ (applyH_identity x y) hx0 hx1 hy0 hy1]
  show toUint8Clamped (bilinearSample img x y k) = _
  rw [bilinearSample_grid img hv x y hx hy k, toUint8Clamped_byte _ (pixelByte_le img hv _ k)]

/-! ## The concrete scenario: a solid red 100x100 source -/

theorem redImage_valid : redImage.Valid := by
  refine ⟨?_, ?_, ?_⟩
  · simp [redImage]
  · simp [redImage]
  · intro i h
    simp only [redImage, Array.getElem_ofFn]
    split_ifs <;> omega

theorem redImage_pixel (n : ℕ) (hn : n < 100 * 100) (k : Fin 4) :
    pixelByte redImage n k = redPixel k := by
  unfold pixelByte
  have h : 4 * n + k.val < redImage.data.size := by
    have := k.isLt
    simp [redImage]
    omega
  rw [Array.getD_eq_get?, Array.getElem?_eq_getElem h]
  simp only [redImage, Array.getElem_ofFn, Option.getD_some]
  fin_cases k
  · show (if (4 * n + 0) % 4 = 1 ∨ (4 * n + 0) % 4 = 2 then 0 else 255) = 255
    rw [if_neg (by omega)]
  · show (if (4 * n + 1) % 4 = 1 ∨ (4 * n + 1) % 4 = 2 then 0 else 255) = 0
    rw [if_pos (by omega)]
  · show (if (4 * n + 2) % 4 = 1 ∨ (4 * n + 2) % 4 = 2 then 0 else 255) = 0
    rw [if_pos (by omega)]
  · show (if (4 * n + 3) % 4 = 1 ∨ (4 * n + 3) % 4 = 2 then 0 else 255) = 255
    rw [if_neg (by omega)]

theorem redPixel_le (k : Fin 4) : redPixel k ≤ 255 := by
  fin_cases k <;> decide

theorem applyH_scaleH (x y : ℚ) : applyH scaleH x y = some ⟨100 / 49 * x, 100 / 49 * y⟩ := by
  apply applyH_eq_of_mul
  · show (0 : ℚ) * x + 0 * y + 1 ≠ 0
    norm_num
  · show (100 / 49 : ℚ) * x + 0 * y + 0 = 100 / 49 * x * (0 * x + 0 * y + 1)
    ring
  · show (0 : ℚ) * x + 100 / 49 * y + 0 = 100 / 49 * y * (0 * x + 0 * y + 1)
    ring

theorem renderPixel_red (x y : ℕ) (k : Fin 4) :
    renderPixel redImage scaleH x y k = if x < 49 ∧ y < 49 then redPixel k else 0 := by
  have hp := applyH_scaleH x y
  by_cases h : x < 49 ∧ y < 49
  · rw [if_pos h]
    have hx : (x : ℚ) ≤ 48 := by exact_mod_cast Nat.le_of_lt_succ h.1
    have hy : (y : ℚ) ≤ 48 := by exact_mod_cast Nat.le_of_lt_succ h.2
    have hx0 : (0 : ℚ) ≤ (x : ℚ) := by exact_mod_cast Nat.zero_le x
    have hy0 : (0 : ℚ) ≤ (y : ℚ) := by exact_mod_cast Nat.zero_le y
    have b1 : (0 : ℚ) ≤ 100 / 49 * (x : ℚ) := by positivity
    have b2 : (100 / 49 * (x : ℚ) : ℚ) < ((redImage.width : ℕ) : ℚ) := by
      show (100 / 49 * (x : ℚ) : ℚ) < ((100 : ℕ) : ℚ)
      push_cast
      linarith
    have b3 : (0 : ℚ) ≤ 100 / 49 * (y : ℚ) := by positivity
    have b4 : (100 / 49 * (y : ℚ) : ℚ) < ((redImage.height : ℕ) : ℚ) := by
      show (100 / 49 * (y : ℚ) : ℚ) < ((100 : ℕ) : ℚ)
      push_cast
      linarith
    rw [renderPixel_inBounds redImage scaleH x y k _ hp b1 b2 b3 b4]
    show toUint8Clamped (bilinearSample redImage (100 / 49 * (x : ℚ)) (100 / 49 * (y : ℚ)) k) = _
    rw [bilinearSample_uniform redImage redImage_valid _ _ b1 b2 b3 b4 k (redPixel k)
      (fun n hn => redImage_pixel n hn k), toUint8Clamped_byte _ (redPixel_le k)]
  · rw [if_neg h]
    apply renderPixel_outside redImage scaleH x y k _ hp
    right; right
    rcases not_and_or.mp h with h | h
    · left
      have : (49 : ℚ) ≤ (x : ℚ) := by exact_mod_cast not_lt.mp h
      show (100 / 49 * (x : ℚ) : ℚ) ≥ ((100 : ℕ) : ℚ)
      push_cast
      linarith
    · right
      have : (49 : ℚ) ≤ (y : ℚ) := by exact_mod_cast not_lt.mp h
      show (100 / 49 * (y : ℚ) : ℚ) ≥ ((100 : ℕ) : ℚ)
      push_cast
      linarith

/-! ## Strictly convex quads -/

theorem img2_valid : img2.Valid := by decide!

theorem bilinearSample_eq_spec (img : ImageData) (hv : img.Valid) (x y : ℚ)
    (hx0 : 0 ≤ x) (hx1 : x < img.width) (hy0 : 0 ≤ y) (hy1 : y < img.height) (k : Fin 4) :
    bilinearSample img x y k = bilinearSampleSpec img x y k := by
  obtain ⟨fx0, fx1⟩ := floor_range x img.width hx0 hx1
  obtain ⟨fy0, fy1⟩ := floor_range y img.height hy0 hy1
  obtain ⟨cx0, cx1⟩ := clamp_succ_range ⌊x⌋ _ fx0 fx1
  obtain ⟨cy0, cy1⟩ := clamp_succ_range ⌊y⌋ _ fy0 fy1
  obtain ⟨a1, a2⟩ := pixel_index_range _ _ _ _ fx0 fx1 fy0 fy1
  obtain ⟨b1, b2⟩ := pixel_index_range _ _ _ _ cx0 cx1 fy0 fy1
  obtain ⟨c1, c2⟩ := pixel_index_range _ _ _ _ fx0 fx1 cy0 cy1
  obtain ⟨d1, d2⟩ := pixel_index_range _ _ _ _ cx0 cx1 cy0 cy1
  rw [bilinearSample_inBounds img hv x y hx0 hx1 hy0 hy1 k]
  unfold bilinearSampleSpec
  simp only
  rw [clamp_of_mem ⌊x⌋ 0 _ fx0 fx1, clamp_of_mem ⌊y⌋ 0 _ fy0 fy1,
    readData_pixel img hv _ a1 a2 k, readData_pixel img hv _ b1 b2 k,
    readData_pixel img hv _ c1 c2 k, readData_pixel img hv _ d1 d2 k]

theorem taps_reads (img : ImageData) (hv : img.Valid) (x y : ℚ)
    (hx0 : 0 ≤ x) (hx1 : x < img.width) (hy0 : 0 ≤ y) (hy1 : y < img.height) :
    ∀ i ∈ [(taps img x y).i00, (taps img x y).i10, (taps img x y).i01, (taps img x y).i11],
      ∀ k : Fin 4, 0 ≤ i + (k.val : ℤ) ∧ i + (k.val : ℤ) < img.data.size ∧
        ∃ v : ℕ, readData img.data (i + (k.val : ℤ)) = some (v : ℚ) := by
  intro i hi k
  obtain ⟨_, h0, h1⟩ := taps_range img hv x y hx0 hx1 hy0 hy1 i hi
  obtain ⟨_, hsz⟩ := valid_size img hv
  have hk : (k.val : ℤ) < 4 := by exact_mod_cast k.isLt
  have hk0 : (0 : ℤ) ≤ (k.val : ℤ) := by exact_mod_cast Nat.zero_le _
  have r0 : 0 ≤ i + (k.val : ℤ) := by omega
  have r1 : i + (k.val : ℤ) < img.data.size := by omega
  obtain ⟨_, hr⟩ := readData_of_range img.data _ r0 r1
  exact ⟨r0, r1, _, hr⟩

/-- Claim C5. For a source buffer of width `W ≥ 2` and height `H ≥ 2`, rectifying
with the quad `(0,0), (W-1,0), (W-1,H-1), (0,H-1)` at output size `W x H` estimates
the identity homography, and the output holds, at every pixel and channel, the
byte of the source at that pixel and channel; `bilinearSample` at an in-bounds
integer coordinate returns exactly the stored byte. -/
theorem identity_rectification (img : ImageData) (hv : img.Valid)
    (hW : 2 ≤ img.width) (hH : 2 ≤ img.height) :
    computeHomography (dstSq img.width img.height) (dstSq img.width img.height) =
        .ok identityH ∧
    (∃ out : Output,
      renderOutput img (dstSq img.width img.height) img.width img.height = .ok out ∧
      out.width = img.width ∧ out.height = img.height ∧
      ∀ x y : ℕ, x < img.width → y < img.height → ∀ k : Fin 4,
        out.pixel x y k = pixelByte img (y * img.width + x) k) ∧
    ∀ x y : ℕ, x < img.width → y < img.height → ∀ k : Fin 4,
      bilinearSample img x y k = some ((pixelByte img (y * img.width + x) k : ℕ) : ℚ) := by
  have hH' := computeHomography_identity img.width img.height hW hH
  refine ⟨hH', ⟨_, renderOutput_ok img _ _ _ _ hH', rfl, rfl, ?_⟩, ?_⟩
  · intro x y hx hy k
    exact renderPixel_identity img hv x y hx hy k
  · intro x y hx hy k
    exact bilinearSample_grid img hv x y hx hy k

theorem identity_rectification_witness :
    img2.Valid ∧
    (computeHomography (dstSq img2.width img2.height) (dstSq img2.width img2.height) =
        .ok identityH ∧
    (∃ out : Output,
      renderOutput img2 (dstSq img2.width img2.height) img2.width img2.height = .ok out ∧
      out.width = img2.width ∧ out.height = img2.height ∧
      ∀ x y : ℕ, x < img2.width → y < img2.height → ∀ k : Fin 4,
        out.pixel x y k = pixelByte img2 (y * img2.width + x) k) ∧
    ∀ x y : ℕ, x < img2.width → y < img2.height → ∀ k : Fin 4,
      bilinearSample img2 x y k = some ((pixelByte img2 (y * img2.width + x) k : ℕ) : ℚ)) :=
  ⟨img2_valid, identity_rectification img2 img2_valid (by decide) (by decide)⟩

/-- Claim C6, refuted as stated. For the quad `(0,0), (100,0), (100,100), (0,100)`
and a 50x50 output the estimated homography is not `h0 = h4 = 2`, rest `0`. -/
theorem scenario_homography_not_two :
    computeHomography fullQuad (dstSq 50 50) ≠ .ok ![2, 0, 0, 0, 2, 0, 0, 0, 1] := by
  decide!

/-- Claim C6, amended. For the quad `(0,0), (100,0), (100,100), (0,100)` and a
50x50 output, whose destination rectangle has its far corner at `(49,49)`, the
estimated homography is exactly `h0 = h4 = 100/49`, all other free coefficients
`0`. -/
theorem scenario_homography :
    computeHomography fullQuad (dstSq 50 50) =
      .ok ![100 / 49, 0, 0, 0, 100 / 49, 0, 0, 0, 1] :=
  fullQuad_run

/-- Claim C7, refuted as stated. With the solid red 100x100 source, the quad
`(0,0), (100,0), (100,100), (0,100)` and a 50x50 output, the output pixels
`(49, 0)` and `(49, 49)` are stored as `0,0,0,0`, not `255,0,0,255`. -/
theorem scenario_last_column_transparent :
    ∃ out : Output, renderOutput redImage fullQuad 50 50 = .ok out ∧
      (∀ k : Fin 4, out.pixel 49 0 k = 0) ∧ (∀ k : Fin 4, out.pixel 49 49 k = 0) ∧
      out.pixel 49 0 0 ≠ 255 ∧ out.pixel 49 49 3 ≠ 255 := by
  refine ⟨_, renderOutput_ok redImage fullQuad 50 50 scaleH fullQuad_run, ?_, ?_, ?_, ?_⟩
  · intro k
    exact (renderPixel_red 49 0 k).trans (if_neg (by decide))
  · intro k
    exact (renderPixel_red 49 49 k).trans (if_neg (by decide))
  · show renderPixel redImage scaleH 49 0 0 ≠ 255
    rw [(renderPixel_red 49 0 0).trans (if_neg (by decide))]
    decide
  · show renderPixel redImage scaleH 49 49 3 ≠ 255
    rw [(renderPixel_red 49 49 3).trans (if_neg (by decide))]
    decide

/-- Claim C7, amended. With the solid red 100x100 source, the quad
`(0,0), (100,0), (100,100), (0,100)` and a 50x50 output, rendering succeeds with
a 50x50 output in which every pixel with `x ≤ 48` and `y ≤ 48` is `255,0,0,255`
and every pixel of the last column `x = 49` or last row `y = 49` is `0,0,0,0`. -/
theorem scenario_output :
    ∃ out : Output, renderOutput redImage fullQuad 50 50 = .ok out ∧
      out.width = 50 ∧ out.height = 50 ∧
      ∀ x y : Fin 50, ∀ k : Fin 4,
        out.pixel x.val y.val k = if x.val < 49 ∧ y.val < 49 then redPixel k else 0 :=
  ⟨_, renderOutput_ok redImage fullQuad 50 50 scaleH fullQuad_run, rfl, rfl,
    fun x y k => renderPixel_red x.val y.val k⟩

/-- Claim C10. For a source buffer of width `w ≥ 1` and height `h ≥ 1` and a
coordinate `(sx, sy)` that passes the bounds test of the renderer, each of the
four base indices `i00, i10, i01, i11` of `bilinearSample` is a multiple of 4 in
`[0, 4*w*h - 4]`, and each of the 16 channel reads `data[i + k]` lies inside the
data array and returns a stored byte. -/
theorem taps_inside_array (img : ImageData) (hv : img.Valid)
    (hw : 1 ≤ img.width) (hh : 1 ≤ img.height) (sx sy : ℚ)
    (hx0 : 0 ≤ sx) (hx1 : sx < img.width) (hy0 : 0 ≤ sy) (hy1 : sy < img.height) :
    ∀ i ∈ [(taps img sx sy).i00, (taps img sx sy).i10, (taps img sx sy).i01,
        (taps img sx sy).i11],
      (4 ∣ i ∧ 0 ≤ i ∧ i ≤ 4 * ((img.width : ℤ) * img.height) - 4) ∧
      ∀ k : Fin 4, 0 ≤ i + (k.val : ℤ) ∧ i + (k.val : ℤ) < img.data.size ∧
        ∃ v : ℕ, readData img.data (i + (k.val : ℤ)) = some (v : ℚ) := by
  have _h := And.intro hw hh
  intro i hi
  exact ⟨taps_range img hv sx sy hx0 hx1 hy0 hy1 i hi,
    taps_reads img hv sx sy hx0 hx1 hy0 hy1 i hi⟩

theorem taps_inside_array_witness :
    img2.Valid ∧
    ∀ i ∈ [(taps img2 (3 / 2) (1 / 2)).i00, (taps img2 (3 / 2) (1 / 2)).i10,
        (taps img2 (3 / 2) (1 / 2)).i01, (taps img2 (3 / 2) (1 / 2)).i11],
      (4 ∣ i ∧ 0 ≤ i ∧ i ≤ 4 * ((img2.width : ℤ) * img2.height) - 4) ∧
      ∀ k : Fin 4, 0 ≤ i + (k.val : ℤ) ∧ i + (k.val : ℤ) < img2.data.size ∧
        ∃ v : ℕ, readData img2.data (i + (k.val : ℤ)) = some (v : ℚ) :=
  ⟨img2_valid, taps_inside_array img2 img2_valid (by decide) (by decide) (3 / 2) (1 / 2)
    (by norm_num) (by norm_num [img2]) (by norm_num) (by norm_num [img2])⟩

end PerspectiveSquare
